import Mathlib

/-!
Verification of scripts/generate_profiles.py, the profile.json generator:
a pipeline that loads JSON fragment files, validates required fields,
sorts them by category precedence and id, wraps them in a catalog
envelope and serializes the result.

The embedding models parsed JSON documents as the inductive type JValue,
a source directory as a list of (filename, parse outcome) pairs, and the
console diagnostics as structured values.  String comparison, substring
search and filename manipulation are implemented over the underlying
character lists so that every definition evaluates inside the kernel.
-/

/-- A parsed JSON document, as produced by json.load. -/
inductive JValue where
  | null : JValue
  | bool (b : Bool) : JValue
  | num (n : Int) : JValue
  | str (s : String) : JValue
  | arr (xs : List JValue) : JValue
  | obj (kvs : List (String × JValue)) : JValue

/-- A Python dict as parsed from JSON: an association list keeping key order. -/
abbrev Dict := List (String × JValue)

/-- Lexicographic comparison of character lists by code point, the order
Python uses on str values. -/
def charListLe : List Char → List Char → Bool
  | [], _ => true
  | _ :: _, [] => false
  | a :: as, b :: bs =>
    decide (a.toNat < b.toNat) || (a.toNat == b.toNat && charListLe as bs)

/-- Code point order on strings, mirroring Python str comparison. -/
def strLe (a b : String) : Bool :=
  charListLe a.data b.data

/-- Whether the string s ends with the given suffix. -/
def strEndsWith (s suffix : String) : Bool :=
  suffix.data.reverse.isPrefixOf s.data.reverse

/-- Whether the string s starts with the given p. -/
def strStartsWith (s p : String) : Bool :=
  p.data.isPrefixOf s.data

/-- Whether sub occurs as a contiguous substring of hay, mirroring the
Python membership test on str values. -/
def charListContains (hay sub : List Char) : Bool :=
  sub.isPrefixOf hay ||
    match hay with
    | [] => false
    | _ :: t => charListContains t sub

/-- Python substring membership: sub in s. -/
def strContains (s sub : String) : Bool :=
  charListContains s.data sub.data

/-- The stem of a filename, as computed by pathlib PurePath.stem: the name
with its last extension removed, where an extension needs a dot that is
neither the first nor the last character. -/
def fileStem (name : String) : String :=
  let cs := name.data
  let n := cs.length
  let r := cs.reverse.findIdx (fun c => c == '.')
  if r = n then name
  else
    let i := n - 1 - r
    if 0 < i ∧ i < n - 1 then String.mk (cs.take i) else name

/-- Python equality of a JSON value against a Python string: true exactly
when the value is that string.  This is the only equality the script
performs (field in data, data.get comparisons, list.index). -/
def eqStrB (fld : String) : JValue → Bool
  | .str s => fld == s
  | _ => false

/-- Structured form of one console line emitted while loading fragments.
The script prints these with print; the constructors keep the data the
claims are about (severity, file name, payload) instead of the rendered
text. -/
inductive Diag where
  | invalidJson (file : String) (err : String) : Diag
  | missingFields (file : String) (missing : List String) : Diag
  | otherError (file : String) (err : String) : Diag
  | idMismatch (file : String) (idv : JValue) : Diag
  | okLine (file : String) (nameVal : JValue) : Diag
  | dirNotFound : Diag

/-- Severity of a console line: ERROR, WARN or the informational OK line. -/
inductive Severity where
  | error : Severity
  | warn : Severity
  | info : Severity
deriving DecidableEq

/-- Severity of each diagnostic, as printed by the script. -/
def Diag.severity : Diag → Severity
  | .invalidJson _ _ => .error
  | .missingFields _ _ => .error
  | .otherError _ _ => .error
  | .idMismatch _ _ => .warn
  | .okLine _ _ => .info
  | .dirNotFound => .error

/-- The file a diagnostic names, when it names one. -/
def Diag.file : Diag → Option String
  | .invalidJson f _ => some f
  | .missingFields f _ => some f
  | .otherError f _ => some f
  | .idMismatch f _ => some f
  | .okLine f _ => some f
  | .dirNotFound => none

/-- Outcome of opening and json.load-ing one file: a parsed value, a
JSONDecodeError, or any other exception (IO failure and the like). -/
inductive ParseResult where
  | ok (v : JValue) : ParseResult
  | parseError (msg : String) : ParseResult
  | ioError (msg : String) : ParseResult

/-- The required fragment attributes checked by load_fragment. -/
def required_fields : List String :=
  ["id", "name", "description", "category", "variables"]

/-- Python membership of a string key in a dict: key comparison against the
dict keys. -/
def hasKey (kvs : Dict) (fld : String) : Bool :=
  kvs.any (fun kv => kv.1 == fld)

/-- The missing required fields of a parsed dict, in required_fields order,
as computed by the list comprehension in load_fragment. -/
def missingOf (kvs : Dict) : List String :=
  required_fields.filter (fun fld => !(hasKey kvs fld))

/-- Load and validate a single fragment file (load_fragment in the script).
The content argument is the outcome of open plus json.load.  Python is
dynamically typed, so the required-field membership test field in data and
the subscript data[id] behave differently per shape of the parsed value;
the match on data spells those behaviours out per constructor:
for a dict, membership checks keys and subscription looks keys up; for a
list, membership compares elements and subscription with a string raises
TypeError; for a str, membership is substring search and subscription
raises TypeError; for numbers, booleans and null the membership test
itself raises TypeError.  Every such exception is caught by the final
catch-all and reported as an ERROR, returning no fragment. -/
def load_fragment (filename : String) (content : ParseResult) :
    Option Dict × List Diag :=
  match content with
  | .parseError e => (none, [Diag.invalidJson filename e])
  | .ioError e => (none, [Diag.otherError filename e])
  | .ok data =>
    match data with
    | .obj kvs =>
      let missing := missingOf kvs
      if missing.isEmpty then
        match kvs.lookup "id" with
        | some idv =>
          if eqStrB (fileStem filename) idv then (some kvs, [])
          else (some kvs, [Diag.idMismatch filename idv])
        | none => (none, [Diag.otherError filename "KeyError: id"])
      else (none, [Diag.missingFields filename missing])
    | .arr xs =>
      let missing := required_fields.filter
        (fun fld => !(xs.any (fun v => eqStrB fld v)))
      if missing.isEmpty then
        (none, [Diag.otherError filename
          "TypeError: list indices must be integers or slices, not str"])
      else (none, [Diag.missingFields filename missing])
    | .str s =>
      let missing := required_fields.filter (fun fld => !(strContains s fld))
      if missing.isEmpty then
        (none, [Diag.otherError filename
          "TypeError: string indices must be integers"])
      else (none, [Diag.missingFields filename missing])
    | .num _ =>
      (none, [Diag.otherError filename
        "TypeError: argument of type int is not iterable"])
    | .bool _ =>
      (none, [Diag.otherError filename
        "TypeError: argument of type bool is not iterable"])
    | .null =>
      (none, [Diag.otherError filename
        "TypeError: argument of type NoneType is not iterable"])

example : fileStem "docker.json" = "docker" := by decide
example : fileStem "_draft.json" = "_draft" := by decide
example : fileStem "a.b.json" = "a.b" := by decide
example : fileStem "noext" = "noext" := by decide
example : fileStem ".json" = ".json" := by decide
example : fileStem "foo." = "foo." := by decide
example : missingOf [("id", JValue.str "x"), ("name", JValue.str "x"),
  ("description", JValue.str "x"), ("category", JValue.str "x")] =
    ["variables"] := by decide

/-- A source directory: either absent, or a list of plain files given as
(filename, parse outcome) pairs. -/
inductive SourceDir where
  | missing : SourceDir
  | present (files : List (String × ParseResult)) : SourceDir

/-- Whether a file is picked up by the glob over the source directory:
name matches *.json and does not start with the underscore marker. -/
def isCandidate (name : String) : Bool :=
  strEndsWith name ".json" && !(strStartsWith name "_")

/-- Order on directory entries used by sorted: pathlib Paths inside one
directory compare by their final component, in code point order. -/
def fileNameLe (a b : String × ParseResult) : Prop :=
  charListLe a.1.data b.1.data = true

instance : DecidableRel fileNameLe := fun a b => by
  unfold fileNameLe
  infer_instance

/-- The candidate files of a directory listing, sorted by filename.
CPython sorted is a stable sort; for a total preorder the stable sorted
permutation is unique, and insertion sort computes it. -/
def sortedCandidates (files : List (String × ParseResult)) :
    List (String × ParseResult) :=
  List.insertionSort fileNameLe (files.filter (fun fp => isCandidate fp.1))

/-- One iteration of the collection loop: load the file and, on success,
also print the OK line naming the fragment (via fragment[name], which is
present after validation). -/
def processOne (fp : String × ParseResult) : Option Dict × List Diag :=
  match load_fragment fp.1 fp.2 with
  | (some frag, ds) =>
    (some frag,
      ds ++ [Diag.okLine fp.1 ((frag.lookup "name").getD JValue.null)])
  | (none, ds) => (none, ds)

/-- Body of the collection loop: on success append the fragment to the
accumulated list, in every case append the console lines. -/
def collectStep (acc : List Dict × List Diag) (fp : String × ParseResult) :
    List Dict × List Diag :=
  match processOne fp with
  | (some frag, ds) => (acc.1 ++ [frag], acc.2 ++ ds)
  | (none, ds) => (acc.1, acc.2 ++ ds)

/-- Collect all valid fragments from the source directory
(collect_fragments in the script), together with the console trace. -/
def collect_fragments : SourceDir → List Dict × List Diag
  | .missing => ([], [Diag.dirNotFound])
  | .present files => (sortedCandidates files).foldl collectStep ([], [])

/-- The fixed category precedence list of sort_fragments. -/
def category_order : List String :=
  ["Development", "AI", "Cloud", "DevOps", "Database", "Network", "CI/CD"]

/-- Python list.index of a JSON value in the category list, with the
ValueError fallback to the list length used by sort_key: a value equal to
no element (in particular any non-string) yields len(category_order). -/
def catIndex (category : JValue) : Nat :=
  category_order.findIdx (fun s => eqStrB s category)

/-- Python dict.get with a default. -/
def dictGet (kvs : Dict) (key : String) (default : JValue) : JValue :=
  (kvs.lookup key).getD default

/-- The sort key of sort_fragments: category rank (index in
category_order, or its length for unknown categories, via the ValueError
handler), then the id value, defaulting to the empty string. -/
def sort_key (f : Dict) : Nat × JValue :=
  (catIndex (dictGet f "category" (JValue.str "ZZZ")),
   dictGet f "id" (JValue.str ""))

/-- Rank ordering on JSON values extending Python str comparison.  CPython
compares the id components of the sort keys with the < of str; on any
pair that is not two strings it would raise TypeError instead, which the
pipeline never does for schema-valid fragments (their ids are strings).
The embedding totalizes the comparison by constructor rank so the sort is
a function; all claims evaluate it on string ids only, where it agrees
with Python. -/
def jvalRank : JValue → Nat
  | .null => 0
  | .bool _ => 1
  | .num _ => 2
  | .str _ => 3
  | .arr _ => 4
  | .obj _ => 5

/-- Comparison of the id components of sort keys, see jvalRank. -/
def jvalLe (a b : JValue) : Bool :=
  match a, b with
  | .str x, .str y => charListLe x.data y.data
  | _, _ => jvalRank a ≤ jvalRank b

/-- Lexicographic comparison of sort keys, as Python compares the
(cat_index, id) tuples. -/
def keyLe (p q : Nat × JValue) : Bool :=
  decide (p.1 < q.1) || (p.1 == q.1 && jvalLe p.2 q.2)

/-- The ordering relation sorted uses on fragments via key=sort_key. -/
def fragLe (f g : Dict) : Prop :=
  keyLe (sort_key f) (sort_key g) = true

instance : DecidableRel fragLe := fun f g => by
  unfold fragLe
  infer_instance

/-- Sort fragments by category precedence then id (sort_fragments in the
script).  CPython sorted is a stable sort keyed by sort_key; stable
sorting by a total preorder has a unique result, computed by insertion
sort. -/
def sort_fragments (fragments : List Dict) : List Dict :=
  List.insertionSort fragLe fragments

/-- The current local date, the only input of datetime.now the script
uses. -/
structure DateYMD where
  year : Nat
  month : Nat
  day : Nat

/-- Decimal digits of a natural number, fuel-driven so it reduces in the
kernel. -/
def natReprAux : Nat → Nat → List Char
  | 0, _ => []
  | fuel + 1, n =>
    if n < 10 then [Char.ofNat (48 + n)]
    else natReprAux fuel (n / 10) ++ [Char.ofNat (48 + n % 10)]

/-- Decimal rendering of a natural number. -/
def natRepr (n : Nat) : String :=
  String.mk (natReprAux (n + 1) n)

/-- Zero-pad to two digits, as strftime %m and %d do. -/
def pad2 (n : Nat) : String :=
  if n < 10 then "0" ++ natRepr n else natRepr n

/-- Zero-pad to four digits, as strftime %Y does. -/
def pad4 (n : Nat) : String :=
  if n < 10 then "000" ++ natRepr n
  else if n < 100 then "00" ++ natRepr n
  else if n < 1000 then "0" ++ natRepr n
  else natRepr n

/-- strftime("%Y-%m-%d") on the current local date. -/
def formatDate (d : DateYMD) : String :=
  pad4 d.year ++ "-" ++ pad2 d.month ++ "-" ++ pad2 d.day

/-- Build the catalog envelope (generate_profile in the script): fixed
literals, the formatted date, and the fragment list verbatim. -/
def generate_profile (fragments : List Dict) (today : DateYMD) : Dict :=
  [("version", JValue.str "1.0.0"),
   ("lastUpdated", JValue.str (formatDate today)),
   ("author", JValue.str "TCM Community"),
   ("description", JValue.str
     "Terminal Context Manager - Profile Templates & Environment Variables Dictionary"),
   ("repository", JValue.str
     "https://github.com/ZhiZeYi/terminal-context-template"),
   ("templates", JValue.arr (fragments.map JValue.obj))]

/-- Signed decimal rendering of an integer, as json.dumps prints numbers
parsed as int. -/
def intRepr (n : Int) : String :=
  if n < 0 then "-" ++ natRepr n.natAbs else natRepr n.natAbs

/-- Lower-case hexadecimal digit, for the \u escapes. -/
def hexDigitChar (n : Nat) : Char :=
  if n < 10 then Char.ofNat (48 + n) else Char.ofNat (87 + n)

/-- JSON string escaping of one character, following the json module with
ensure_ascii=False: quote, backslash and control characters are escaped
(with the five short forms), everything else is passed through. -/
def escapeChar (c : Char) : String :=
  if c = '"' then "\\\""
  else if c = '\\' then "\\\\"
  else if c = '\n' then "\\n"
  else if c = '\t' then "\\t"
  else if c = '\r' then "\\r"
  else if c.toNat = 8 then "\\b"
  else if c.toNat = 12 then "\\f"
  else if c.toNat < 32 then
    "\\u00" ++ String.mk [hexDigitChar (c.toNat / 16), hexDigitChar (c.toNat % 16)]
  else String.mk [c]

/-- A JSON string literal with quotes and escapes. -/
def jsonStr (s : String) : String :=
  "\"" ++ (s.data.map escapeChar).foldl (fun acc t => acc ++ t) "" ++ "\""

/-- Join rendered items with a separator. -/
def strIntercalate (sep : String) : List String → String
  | [] => ""
  | x :: xs => xs.foldl (fun acc y => acc ++ sep ++ y) x

/-- Indentation of 2 * k spaces, the indent=2 pretty printer layout. -/
def indentStr (k : Nat) : String :=
  String.mk (List.replicate (2 * k) ' ')

mutual

/-- Serialization of a JSON value at nesting depth k, exactly as
json.dumps(v, indent=2, ensure_ascii=False) renders it: containers open
on the current line, put each child on its own line indented one level
deeper, and close at the container depth; empty containers render
inline. -/
def jdump : JValue → Nat → String
  | .null, _ => "null"
  | .bool b, _ => if b then "true" else "false"
  | .num n, _ => intRepr n
  | .str s, _ => jsonStr s
  | .arr [], _ => "[]"
  | .arr (x :: xs), k =>
    "[\n" ++ strIntercalate ",\n" (jdumpItems (x :: xs) (k + 1)) ++
      "\n" ++ indentStr k ++ "]"
  | .obj [], _ => "\x7b\x7d"
  | .obj (kv :: kvs), k =>
    "\x7b\n" ++ strIntercalate ",\n" (jdumpPairs (kv :: kvs) (k + 1)) ++
      "\n" ++ indentStr k ++ "\x7d"

/-- Rendered lines of array items at depth k. -/
def jdumpItems : List JValue → Nat → List String
  | [], _ => []
  | x :: xs, k => (indentStr k ++ jdump x k) :: jdumpItems xs k

/-- Rendered lines of object entries at depth k. -/
def jdumpPairs : List (String × JValue) → Nat → List String
  | [], _ => []
  | (key, v) :: kvs, k =>
    (indentStr k ++ jsonStr key ++ ": " ++ jdump v k) :: jdumpPairs kvs k

end

/-- The command line switches of the script. -/
structure Args where
  validate : Bool
  dryRun : Bool

/-- Observable outcome of one run: the exit code, the bytes written to
the output file if any, and whether the final no-valid-fragments ERROR
was printed. -/
structure RunResult where
  exitCode : Nat
  written : Option String
  finalError : Bool
deriving DecidableEq

/-- The main driver (main in the script): collect, bail out fatally on an
empty valid set, stop after validation if requested, otherwise sort,
build the envelope, serialize, and either preview (dry run) or write the
output file with a trailing newline.  Named runMain since Lean reserves
main for executable entry points. -/
def runMain (args : Args) (d : SourceDir) (today : DateYMD) : RunResult :=
  let fragments := (collect_fragments d).1
  if fragments.isEmpty then
    { exitCode := 1, written := none, finalError := true }
  else if args.validate then
    { exitCode := 0, written := none, finalError := false }
  else
    let sorted := sort_fragments fragments
    let profile := generate_profile sorted today
    let output_json := jdump (JValue.obj profile) 0
    if args.dryRun then
      { exitCode := 0, written := none, finalError := false }
    else
      { exitCode := 0, written := some (output_json ++ "\n"), finalError := false }

/-! ### Properties of the comparison functions -/

theorem charListLe_refl : ∀ as, charListLe as as = true
  | [] => rfl
  | _ :: as => by simp [charListLe, charListLe_refl as]

theorem charListLe_trans : ∀ as bs cs, charListLe as bs = true →
    charListLe bs cs = true → charListLe as cs = true
  | [], _, _, _, _ => rfl
  | _ :: _, [], _, h, _ => by simp [charListLe] at h
  | _ :: _, _ :: _, [], _, h => by simp [charListLe] at h
  | a :: as, b :: bs, c :: cs, h1, h2 => by
    simp only [charListLe, Bool.or_eq_true, Bool.and_eq_true, decide_eq_true_eq,
      beq_iff_eq] at h1 h2 ⊢
    rcases h1 with h1 | ⟨he1, hr1⟩ <;> rcases h2 with h2 | ⟨he2, hr2⟩
    · exact Or.inl (by omega)
    · exact Or.inl (by omega)
    · exact Or.inl (by omega)
    · exact Or.inr ⟨by omega, charListLe_trans as bs cs hr1 hr2⟩

theorem charListLe_total : ∀ as bs, charListLe as bs = true ∨ charListLe bs as = true
  | [], _ => Or.inl rfl
  | _ :: _, [] => Or.inr rfl
  | a :: as, b :: bs => by
    simp only [charListLe, Bool.or_eq_true, Bool.and_eq_true, decide_eq_true_eq,
      beq_iff_eq]
    rcases Nat.lt_trichotomy a.toNat b.toNat with h | h | h
    · exact Or.inl (Or.inl h)
    · rcases charListLe_total as bs with ih | ih
      · exact Or.inl (Or.inr ⟨h, ih⟩)
      · exact Or.inr (Or.inr ⟨h.symm, ih⟩)
    · exact Or.inr (Or.inl h)

theorem char_toNat_inj {a b : Char} (h : a.toNat = b.toNat) : a = b := by
  have ha := Char.ofNat_toNat a
  rw [h, Char.ofNat_toNat] at ha
  exact ha.symm

theorem charListLe_antisymm : ∀ as bs, charListLe as bs = true →
    charListLe bs as = true → as = bs
  | [], [], _, _ => rfl
  | _ :: _, [], h, _ => by simp [charListLe] at h
  | [], _ :: _, _, h => by simp [charListLe] at h
  | a :: as, b :: bs, h1, h2 => by
    simp only [charListLe, Bool.or_eq_true, Bool.and_eq_true, decide_eq_true_eq,
      beq_iff_eq] at h1 h2
    have hab : a.toNat = b.toNat := by omega
    rcases h1 with h1 | ⟨_, hr1⟩
    · omega
    rcases h2 with h2 | ⟨_, hr2⟩
    · omega
    rw [char_toNat_inj hab, charListLe_antisymm as bs hr1 hr2]

theorem str_eq_of_data_eq {a b : String} (h : a.data = b.data) : a = b := by
  cases a
  cases b
  exact congrArg String.mk h

theorem jvalLe_refl (a : JValue) : jvalLe a a = true := by
  cases a <;> simp [jvalLe, charListLe_refl]

theorem jvalLe_trans {a b c : JValue} (h1 : jvalLe a b = true)
    (h2 : jvalLe b c = true) : jvalLe a c = true := by
  cases a <;> cases b <;> cases c <;>
    simp only [jvalLe, jvalRank, decide_eq_true_eq] at h1 h2 ⊢ <;>
    first
      | exact charListLe_trans _ _ _ h1 h2
      | omega

theorem jvalLe_total (a b : JValue) : jvalLe a b = true ∨ jvalLe b a = true := by
  cases a <;> cases b <;>
    simp only [jvalLe, jvalRank, decide_eq_true_eq] <;>
    first
      | exact charListLe_total _ _
      | omega

theorem keyLe_refl (p : Nat × JValue) : keyLe p p = true := by
  simp [keyLe, jvalLe_refl]

theorem keyLe_trans {p q r : Nat × JValue} (h1 : keyLe p q = true)
    (h2 : keyLe q r = true) : keyLe p r = true := by
  simp only [keyLe, Bool.or_eq_true, Bool.and_eq_true, decide_eq_true_eq,
    beq_iff_eq] at h1 h2 ⊢
  rcases h1 with h1 | ⟨he1, hr1⟩ <;> rcases h2 with h2 | ⟨he2, hr2⟩
  · exact Or.inl (by omega)
  · exact Or.inl (by omega)
  · exact Or.inl (by omega)
  · exact Or.inr ⟨by omega, jvalLe_trans hr1 hr2⟩

theorem keyLe_total (p q : Nat × JValue) : keyLe p q = true ∨ keyLe q p = true := by
  simp only [keyLe, Bool.or_eq_true, Bool.and_eq_true, decide_eq_true_eq,
    beq_iff_eq]
  rcases Nat.lt_trichotomy p.1 q.1 with h | h | h
  · exact Or.inl (Or.inl h)
  · rcases jvalLe_total p.2 q.2 with ih | ih
    · exact Or.inl (Or.inr ⟨h, ih⟩)
    · exact Or.inr (Or.inr ⟨h.symm, ih⟩)
  · exact Or.inr (Or.inl h)

instance : IsTrans Dict fragLe :=
  ⟨fun _ _ _ h1 h2 => keyLe_trans h1 h2⟩

instance : IsTotal Dict fragLe :=
  ⟨fun f g => keyLe_total (sort_key f) (sort_key g)⟩

instance : IsRefl Dict fragLe :=
  ⟨fun f => keyLe_refl (sort_key f)⟩

instance : IsTrans (String × ParseResult) fileNameLe :=
  ⟨fun _ _ _ h1 h2 => charListLe_trans _ _ _ h1 h2⟩

instance : IsTotal (String × ParseResult) fileNameLe :=
  ⟨fun a b => charListLe_total a.1.data b.1.data⟩

/-! ### Characterization of the collector -/

theorem foldl_collectStep_eq : ∀ (cands : List (String × ParseResult))
    (acc : List Dict × List Diag),
    cands.foldl collectStep acc =
      (acc.1 ++ cands.filterMap (fun fp => (processOne fp).1),
       acc.2 ++ cands.flatMap (fun fp => (processOne fp).2))
  | [], acc => by simp
  | fp :: cands, acc => by
    rw [List.foldl_cons, foldl_collectStep_eq]
    rcases hp : processOne fp with ⟨_ | frag, ds⟩ <;>
      simp [collectStep, hp]

theorem collect_present_eq (files : List (String × ParseResult)) :
    collect_fragments (.present files) =
      ((sortedCandidates files).filterMap (fun fp => (processOne fp).1),
       (sortedCandidates files).flatMap (fun fp => (processOne fp).2)) := by
  rw [collect_fragments, foldl_collectStep_eq]
  simp

theorem processOne_fst (fp : String × ParseResult) :
    (processOne fp).1 = (load_fragment fp.1 fp.2).1 := by
  unfold processOne
  rcases load_fragment fp.1 fp.2 with ⟨_ | frag, ds⟩ <;> rfl

theorem load_fragment_diags_file (fn : String) (c : ParseResult) :
    ∀ dg ∈ (load_fragment fn c).2, Diag.file dg = some fn := by
  intro dg hdg
  cases c with
  | parseError e => simp [load_fragment] at hdg; simp [hdg, Diag.file]
  | ioError e => simp [load_fragment] at hdg; simp [hdg, Diag.file]
  | ok data =>
    cases data <;> simp only [load_fragment] at hdg <;>
      (repeat' split at hdg) <;> simp_all [Diag.file]

theorem processOne_diags_file (fp : String × ParseResult) :
    ∀ dg ∈ (processOne fp).2, Diag.file dg = some fp.1 := by
  intro dg hdg
  unfold processOne at hdg
  rcases hl : load_fragment fp.1 fp.2 with ⟨o, ds⟩
  rw [hl] at hdg
  cases o with
  | none =>
    exact load_fragment_diags_file fp.1 fp.2 dg (by rw [hl]; exact hdg)
  | some frag =>
    simp only [List.mem_append, List.mem_singleton] at hdg
    rcases hdg with hdg | hdg
    · exact load_fragment_diags_file fp.1 fp.2 dg (by rw [hl]; exact hdg)
    · simp [hdg, Diag.file]

/-! ### Order invariance of the collector -/

theorem fileNameLe_antisymm {a b : String × ParseResult}
    (h1 : fileNameLe a b) (h2 : fileNameLe b a) : a.1 = b.1 :=
  str_eq_of_data_eq (charListLe_antisymm _ _ h1 h2)

theorem sortedCandidates_perm_eq {files1 files2 : List (String × ParseResult)}
    (hp : List.Perm files1 files2) (hn : (files1.map Prod.fst).Nodup) :
    sortedCandidates files1 = sortedCandidates files2 := by
  have hfp : List.Perm (files1.filter (fun fp => isCandidate fp.1))
      (files2.filter (fun fp => isCandidate fp.1)) := hp.filter _
  have hperm : List.Perm (sortedCandidates files1) (sortedCandidates files2) :=
    ((List.perm_insertionSort _ _).trans hfp).trans
      (List.perm_insertionSort _ _).symm
  have hs1 : (sortedCandidates files1).Sorted fileNameLe :=
    List.sorted_insertionSort _ _
  have hs2 : (sortedCandidates files2).Sorted fileNameLe :=
    List.sorted_insertionSort _ _
  have hn1 : ((sortedCandidates files1).map Prod.fst).Nodup := by
    refine ((List.perm_insertionSort _ _).map Prod.fst).nodup_iff.mpr ?_
    exact hn.sublist ((List.filter_sublist _).map Prod.fst)
  have hne1 : (sortedCandidates files1).Pairwise (fun a b => a.1 ≠ b.1) :=
    (List.pairwise_map.mp hn1)
  have hn2 : ((sortedCandidates files2).map Prod.fst).Nodup := by
    refine ((List.perm_insertionSort _ _).map Prod.fst).nodup_iff.mpr ?_
    exact ((hp.map Prod.fst).nodup_iff.mp hn).sublist
      ((List.filter_sublist _).map Prod.fst)
  have hne2 : (sortedCandidates files2).Pairwise (fun a b => a.1 ≠ b.1) :=
    (List.pairwise_map.mp hn2)
  haveI : IsAntisymm (String × ParseResult)
      (fun a b => fileNameLe a b ∧ a.1 ≠ b.1) :=
    ⟨fun a b h1 h2 => absurd (fileNameLe_antisymm h1.1 h2.1) h1.2⟩
  exact List.eq_of_perm_of_sorted hperm (hs1.and hne1) (hs2.and hne2)

theorem collect_perm_eq {files1 files2 : List (String × ParseResult)}
    (hp : List.Perm files1 files2) (hn : (files1.map Prod.fst).Nodup) :
    collect_fragments (.present files1) = collect_fragments (.present files2) := by
  show (sortedCandidates files1).foldl collectStep ([], []) =
    (sortedCandidates files2).foldl collectStep ([], [])
  rw [sortedCandidates_perm_eq hp hn]

/-! ### Schema-valid fragments and the sort key on them -/

/-- What the sorter observes of a schema-valid fragment: its id and
category entries exist and are strings, as the fragment file schema
requires. -/
def ValidFrag (f : Dict) : Prop :=
  (∃ s, f.lookup "id" = some (JValue.str s)) ∧
  (∃ s, f.lookup "category" = some (JValue.str s))

/-- The category rank of a fragment: index in category_order, or its
length when unknown. -/
def catRank (f : Dict) : Nat :=
  (sort_key f).1

/-- The id component of the sort key, as a string (schema-valid fragments
always have a string there; the fallback is the empty string the sorter
substitutes for a missing id). -/
def idString (f : Dict) : String :=
  match (sort_key f).2 with
  | .str s => s
  | _ => ""

/-- The sort key of a fragment as a (rank, id) pair of concrete type. -/
def normKey (f : Dict) : Nat × String :=
  (catRank f, idString f)

/-- The intended order on (rank, id) keys: by rank, then by id in code
point order. -/
def normLe (p q : Nat × String) : Prop :=
  p.1 < q.1 ∨ (p.1 = q.1 ∧ charListLe p.2.data q.2.data = true)

instance : DecidableRel normLe := fun p q => by
  unfold normLe
  infer_instance

theorem normLe_trans {p q r : Nat × String} (h1 : normLe p q) (h2 : normLe q r) :
    normLe p r := by
  rcases h1 with h1 | ⟨he1, hr1⟩ <;> rcases h2 with h2 | ⟨he2, hr2⟩
  · exact Or.inl (by omega)
  · exact Or.inl (by omega)
  · exact Or.inl (by omega)
  · exact Or.inr ⟨by omega, charListLe_trans _ _ _ hr1 hr2⟩

theorem normLe_total (p q : Nat × String) : normLe p q ∨ normLe q p := by
  rcases Nat.lt_trichotomy p.1 q.1 with h | h | h
  · exact Or.inl (Or.inl h)
  · rcases charListLe_total p.2.data q.2.data with ih | ih
    · exact Or.inl (Or.inr ⟨h, ih⟩)
    · exact Or.inr (Or.inr ⟨h.symm, ih⟩)
  · exact Or.inr (Or.inl h)

theorem normLe_antisymm {p q : Nat × String} (h1 : normLe p q)
    (h2 : normLe q p) : p = q := by
  rcases h1 with h1 | ⟨he1, hr1⟩ <;> rcases h2 with h2 | ⟨he2, hr2⟩ <;>
    try omega
  have : p.2 = q.2 :=
    str_eq_of_data_eq (charListLe_antisymm _ _ hr1 hr2)
  exact Prod.ext he1 this

instance : IsTrans (Nat × String) normLe := ⟨fun _ _ _ => normLe_trans⟩

instance : IsTotal (Nat × String) normLe := ⟨normLe_total⟩

instance : IsAntisymm (Nat × String) normLe := ⟨fun _ _ => normLe_antisymm⟩

theorem valid_sort_key_snd {f : Dict} (h : ValidFrag f) :
    (sort_key f).2 = JValue.str (idString f) := by
  obtain ⟨s, hs⟩ := h.1
  simp [sort_key, dictGet, idString, hs]

theorem fragLe_iff_normLe {f g : Dict} (hf : ValidFrag f) (hg : ValidFrag g) :
    fragLe f g ↔ normLe (normKey f) (normKey g) := by
  unfold fragLe keyLe normLe normKey catRank
  rw [valid_sort_key_snd hf, valid_sort_key_snd hg]
  simp [jvalLe]

theorem fragLe_of_sort_key_eq {f g : Dict} (h : sort_key f = sort_key g) :
    fragLe f g := by
  unfold fragLe
  rw [h]
  exact keyLe_refl _

/-! ### Sorter lemmas -/

theorem sort_fragments_perm (l : List Dict) :
    List.Perm (sort_fragments l) l :=
  List.perm_insertionSort fragLe l

theorem sort_fragments_sorted {l : List Dict} (hv : ∀ f ∈ l, ValidFrag f) :
    (sort_fragments l).Pairwise (fun f g => normLe (normKey f) (normKey g)) := by
  have hs : (sort_fragments l).Pairwise fragLe :=
    List.sorted_insertionSort fragLe l
  refine hs.imp_of_mem ?_
  intro a b ha hb hab
  have hva : ValidFrag a := hv a ((List.mem_insertionSort fragLe).mp ha)
  have hvb : ValidFrag b := hv b ((List.mem_insertionSort fragLe).mp hb)
  exact (fragLe_iff_normLe hva hvb).mp hab

theorem sort_fragments_idem (l : List Dict) :
    sort_fragments (sort_fragments l) = sort_fragments l :=
  List.Sorted.insertionSort_eq (List.sorted_insertionSort fragLe l)

theorem sort_fragments_map_normKey {l : List Dict}
    (hv : ∀ f ∈ l, ValidFrag f) :
    (sort_fragments l).map normKey = List.insertionSort normLe (l.map normKey) := by
  refine List.map_insertionSort fragLe normLe normKey l ?_
  intro a ha b hb
  exact fragLe_iff_normLe (hv a ha) (hv b hb)

theorem sort_fragments_filter_key {l : List Dict}
    (hv : ∀ f ∈ l, ValidFrag f) (k : Nat × String) :
    (sort_fragments l).filter (fun f => decide (normKey f = k)) =
      l.filter (fun f => decide (normKey f = k)) := by
  have hsub : List.Sublist (l.filter (fun f => decide (normKey f = k))) l :=
    List.filter_sublist l
  have hpw : (l.filter (fun f => decide (normKey f = k))).Pairwise fragLe := by
    apply List.pairwise_of_forall_mem_list
    intro a ha b hb
    have hka := List.of_mem_filter ha
    have hkb := List.of_mem_filter hb
    simp only [decide_eq_true_eq] at hka hkb
    have hva : ValidFrag a := hv a (List.mem_of_mem_filter ha)
    have hvb : ValidFrag b := hv b (List.mem_of_mem_filter hb)
    refine (fragLe_iff_normLe hva hvb).mpr ?_
    rw [hka, hkb]
    exact Or.inr ⟨rfl, charListLe_refl _⟩
  have hcs : List.Sublist (l.filter (fun f => decide (normKey f = k)))
      (sort_fragments l) :=
    List.sublist_insertionSort hpw hsub
  have hcf : List.Sublist (l.filter (fun f => decide (normKey f = k)))
      ((sort_fragments l).filter (fun f => decide (normKey f = k))) := by
    have h2 := hcs.filter (fun f => decide (normKey f = k))
    rw [List.filter_filter] at h2
    simpa using h2
  have hlen : ((sort_fragments l).filter (fun f => decide (normKey f = k))).length =
      (l.filter (fun f => decide (normKey f = k))).length := by
    rw [← List.countP_eq_length_filter, ← List.countP_eq_length_filter]
    exact (sort_fragments_perm l).countP_eq _
  exact (hcf.eq_of_length hlen.symm).symm

/-! ### Concrete fragments used in the example scenarios -/

/-- The docker.json fragment of the example scenario. -/
def dockerFrag : Dict :=
  [("id", JValue.str "docker"), ("name", JValue.str "Docker"),
   ("description", JValue.str "Docker environment"),
   ("category", JValue.str "DevOps"), ("variables", JValue.obj [])]

/-- The openai.json fragment of the example scenario. -/
def openaiFrag : Dict :=
  [("id", JValue.str "openai"), ("name", JValue.str "OpenAI"),
   ("description", JValue.str "OpenAI environment"),
   ("category", JValue.str "AI"), ("variables", JValue.obj [])]

theorem dockerFrag_valid : ValidFrag dockerFrag :=
  ⟨⟨"docker", rfl⟩, ⟨"DevOps", rfl⟩⟩

theorem openaiFrag_valid : ValidFrag openaiFrag :=
  ⟨⟨"openai", rfl⟩, ⟨"AI", rfl⟩⟩

theorem catRank_le (f : Dict) : catRank f ≤ category_order.length :=
  List.findIdx_le_length _

theorem catRank_eq_indexOf {f : Dict} {c : String}
    (h : dictGet f "category" (JValue.str "ZZZ") = JValue.str c) :
    catRank f = category_order.indexOf c := by
  unfold catRank sort_key catIndex
  rw [h]
  rfl

/-- C1: for every list of valid fragments, the sorter returns a
permutation of the input that is ordered first by category rank (the
index of the category in the fixed precedence list, with categories
absent from the list ranked after every listed one) and second by id in
ascending code point order as the tie-break; in particular the
docker.json / openai.json input sorts to [openai, docker]. -/
theorem sort_fragments_ordered_by_category_then_id :
    (∀ l : List Dict, (∀ f ∈ l, ValidFrag f) →
      List.Perm (sort_fragments l) l ∧
      (sort_fragments l).Pairwise (fun f g => normLe (normKey f) (normKey g)) ∧
      (sort_fragments l).Pairwise (fun f g =>
        catRank f = category_order.length → catRank g = category_order.length)) ∧
    (∀ f : Dict, ∀ c : String,
      dictGet f "category" (JValue.str "ZZZ") = JValue.str c →
      catRank f = category_order.indexOf c ∧
        (c ∉ category_order → catRank f = category_order.length)) ∧
    sort_fragments [dockerFrag, openaiFrag] = [openaiFrag, dockerFrag] := by
  refine ⟨fun l hv => ⟨sort_fragments_perm l, sort_fragments_sorted hv, ?_⟩,
    fun f c h => ⟨catRank_eq_indexOf h, fun hc => ?_⟩, rfl⟩
  · refine (sort_fragments_sorted hv).imp ?_
    intro a b hab h7
    have hle := catRank_le b
    rcases hab with hab | ⟨hab, _⟩
    · have : catRank a < catRank b := hab
      omega
    · have : catRank a = catRank b := hab
      omega
  · rw [catRank_eq_indexOf h]
    exact List.indexOf_eq_length.mpr hc

/-- Witness for C1 at the concrete two-fragment example. -/
theorem sort_fragments_ordered_witness :
    List.Perm (sort_fragments [dockerFrag, openaiFrag])
      [dockerFrag, openaiFrag] ∧
    catRank dockerFrag = category_order.indexOf "DevOps" := by
  have h := sort_fragments_ordered_by_category_then_id
  have hv : ∀ f ∈ [dockerFrag, openaiFrag], ValidFrag f := by
    intro f hf
    simp only [List.mem_cons, List.not_mem_nil, or_false] at hf
    rcases hf with rfl | rfl
    · exact dockerFrag_valid
    · exact openaiFrag_valid
  exact ⟨(h.1 [dockerFrag, openaiFrag] hv).1,
    (h.2.1 dockerFrag "DevOps" rfl).1⟩

/-! ### C2: totality, idempotence, stability -/

/-- A fragment tying with tieFragB on (category, id) but differing in
name. -/
def tieFragA : Dict :=
  [("id", JValue.str "dup"), ("name", JValue.str "First"),
   ("description", JValue.str "d"), ("category", JValue.str "AI"),
   ("variables", JValue.obj [])]

/-- A fragment tying with tieFragA on (category, id) but differing in
name. -/
def tieFragB : Dict :=
  [("id", JValue.str "dup"), ("name", JValue.str "Second"),
   ("description", JValue.str "d"), ("category", JValue.str "AI"),
   ("variables", JValue.obj [])]

theorem tieFragA_valid : ValidFrag tieFragA :=
  ⟨⟨"dup", rfl⟩, ⟨"AI", rfl⟩⟩

theorem tieFragB_valid : ValidFrag tieFragB :=
  ⟨⟨"dup", rfl⟩, ⟨"AI", rfl⟩⟩

/-- C2 counterexample: two inputs that are permutations of each other
with the same multiset of (category, id) pairs on which the sorter does
not produce identical output order — the sort is stable, so the two
fragments tying on (category, id) stay in their respective input
orders. -/
theorem sorter_not_permutation_invariant :
    List.Perm [tieFragA, tieFragB] [tieFragB, tieFragA] ∧
    normKey tieFragA = normKey tieFragB ∧
    sort_fragments [tieFragA, tieFragB] = [tieFragA, tieFragB] ∧
    sort_fragments [tieFragB, tieFragA] = [tieFragB, tieFragA] ∧
    sort_fragments [tieFragA, tieFragB] ≠ sort_fragments [tieFragB, tieFragA] := by
  refine ⟨List.Perm.swap tieFragB tieFragA [], rfl, rfl, rfl, ?_⟩
  intro h
  have h1 : tieFragA = tieFragB := (List.cons.injEq _ _ _ _).mp h |>.1
  have h2 := congrArg
    (fun d : Dict =>
      match d.lookup "name" with
      | some (JValue.str s) => s.length
      | _ => 0) h1
  exact absurd h2 (by decide)

theorem valid_of_perm {l1 l2 : List Dict} (hv : ∀ f ∈ l1, ValidFrag f)
    (hp : List.Perm l1 l2) : ∀ f ∈ l2, ValidFrag f :=
  fun f hf => hv f (hp.mem_iff.mpr hf)

/-- C2 amended: on valid fragment lists the sort is idempotent (sorting
its own output changes nothing); inputs that are permutations of each
other yield outputs with identical sequences of (category rank, id) sort
keys (though fragments tying on the key keep their respective input
order, so the full output lists can differ); the sort is stable — for
each key value, the output fragments carrying it are exactly the input
fragments carrying it, in input order; and duplicates are passed
through, never deduplicated. -/
theorem sorter_total_stable_key_invariant :
    (∀ l : List Dict, (∀ f ∈ l, ValidFrag f) →
      sort_fragments (sort_fragments l) = sort_fragments l) ∧
    (∀ l1 l2 : List Dict, (∀ f ∈ l1, ValidFrag f) → List.Perm l1 l2 →
      (sort_fragments l1).map normKey = (sort_fragments l2).map normKey) ∧
    (∀ l : List Dict, (∀ f ∈ l, ValidFrag f) → ∀ k : Nat × String,
      (sort_fragments l).filter (fun f => decide (normKey f = k)) =
        l.filter (fun f => decide (normKey f = k))) ∧
    (∀ l : List Dict, (sort_fragments l).length = l.length) := by
  refine ⟨fun l _ => sort_fragments_idem l, fun l1 l2 hv hp => ?_,
    fun l hv k => sort_fragments_filter_key hv k,
    fun l => (sort_fragments_perm l).length_eq⟩
  rw [sort_fragments_map_normKey hv,
    sort_fragments_map_normKey (valid_of_perm hv hp)]
  have hkp : List.Perm (List.insertionSort normLe (l1.map normKey))
      (List.insertionSort normLe (l2.map normKey)) :=
    ((List.perm_insertionSort _ _).trans (hp.map normKey)).trans
      (List.perm_insertionSort _ _).symm
  exact List.eq_of_perm_of_sorted hkp
    (List.sorted_insertionSort _ _) (List.sorted_insertionSort _ _)

/-- Witness for C2 at a concrete list with a duplicated key. -/
theorem sorter_total_stable_key_invariant_witness :
    sort_fragments (sort_fragments [tieFragA, tieFragB]) =
      sort_fragments [tieFragA, tieFragB] ∧
    (sort_fragments [tieFragA, tieFragB]).filter
      (fun f => decide (normKey f = (1, "dup"))) =
        [tieFragA, tieFragB].filter (fun f => decide (normKey f = (1, "dup"))) := by
  have hv : ∀ f ∈ [tieFragA, tieFragB], ValidFrag f := by
    intro f hf
    simp only [List.mem_cons, List.not_mem_nil, or_false] at hf
    rcases hf with rfl | rfl
    · exact tieFragA_valid
    · exact tieFragB_valid
  exact ⟨sorter_total_stable_key_invariant.1 [tieFragA, tieFragB] hv,
    sorter_total_stable_key_invariant.2.2.1 [tieFragA, tieFragB] hv (1, "dup")⟩

/-! ### Loader lemmas and C3 -/

theorem required_present_of_missing_nil {kvs : Dict} (h : missingOf kvs = []) :
    ∀ fld ∈ required_fields, hasKey kvs fld = true := by
  intro fld hfld
  by_contra hk
  have hk2 : hasKey kvs fld = false := by
    cases hcase : hasKey kvs fld
    · rfl
    · exact absurd hcase hk
  have hmem : fld ∈ missingOf kvs := by
    unfold missingOf
    refine List.mem_filter.mpr ⟨hfld, ?_⟩
    rw [hk2]
    rfl
  rw [h] at hmem
  exact List.not_mem_nil fld hmem

theorem load_fragment_some_cases {fn : String} {c : ParseResult} {r : Dict}
    {ds : List Diag} (h : load_fragment fn c = (some r, ds)) :
    c = ParseResult.ok (JValue.obj r) ∧ missingOf r = [] := by
  cases c with
  | parseError e => simp [load_fragment] at h
  | ioError e => simp [load_fragment] at h
  | ok data =>
    cases data with
    | obj kvs =>
      simp only [load_fragment] at h
      by_cases hm : (missingOf kvs).isEmpty = true
      · rw [if_pos hm] at h
        split at h
        · split at h <;>
          · simp only [Prod.mk.injEq, Option.some.injEq] at h
            obtain ⟨rfl, -⟩ := h
            exact ⟨rfl, List.isEmpty_iff.mp hm⟩
        · simp at h
      · rw [if_neg hm] at h
        simp at h
    | null => simp [load_fragment] at h
    | bool b => simp [load_fragment] at h
    | num n => simp [load_fragment] at h
    | str s =>
      simp only [load_fragment] at h
      split at h <;> simp at h
    | arr xs =>
      simp only [load_fragment] at h
      split at h <;> simp at h

/-- A fragment dict having every required attribute except variables. -/
def noVarsFrag : Dict :=
  [("id", JValue.str "x"), ("name", JValue.str "X"),
   ("description", JValue.str "d"), ("category", JValue.str "AI")]

/-- C3: the loader returns a fragment only when the file parses and
carries all required attributes; a parse failure is reported as an ERROR
naming the file and the parse error with no fragment returned; missing
attributes are reported as an ERROR listing exactly the missing names
(for a file lacking only variables, exactly ["variables"]) with no
fragment returned; and a failing file never stops the remaining
candidates from being processed (the collected list is the file-wise
filterMap of the loader over all sorted candidates). -/
theorem loader_rejects_invalid_and_continues :
    (∀ fn e, load_fragment fn (ParseResult.parseError e) =
        (none, [Diag.invalidJson fn e]) ∧
      (Diag.invalidJson fn e).severity = Severity.error ∧
      (Diag.invalidJson fn e).file = some fn) ∧
    (∀ fn kvs, missingOf kvs ≠ [] →
      load_fragment fn (ParseResult.ok (JValue.obj kvs)) =
        (none, [Diag.missingFields fn (missingOf kvs)]) ∧
      (Diag.missingFields fn (missingOf kvs)).severity = Severity.error) ∧
    (∀ fn c r ds, load_fragment fn c = (some r, ds) →
      ∀ fld ∈ required_fields, hasKey r fld = true) ∧
    (∀ files, (collect_fragments (.present files)).1 =
      (sortedCandidates files).filterMap
        (fun fp => (load_fragment fp.1 fp.2).1)) ∧
    missingOf noVarsFrag = ["variables"] ∧
    load_fragment "x.json" (ParseResult.ok (JValue.obj noVarsFrag)) =
      (none, [Diag.missingFields "x.json" ["variables"]]) := by
  refine ⟨fun fn e => ⟨rfl, rfl, rfl⟩, fun fn kvs h => ⟨?_, rfl⟩,
    fun fn c r ds h => required_present_of_missing_nil
      (load_fragment_some_cases h).2, fun files => ?_, by decide, rfl⟩
  · have hemp : (missingOf kvs).isEmpty = false := by
      cases hm : missingOf kvs
      · exact absurd hm h
      · rfl
    simp [load_fragment, hemp]
  · rw [collect_present_eq]
    simp only [processOne_fst]

/-- Witness for C3 on a concrete parse failure and a concrete file
missing only variables. -/
theorem loader_rejects_witness :
    load_fragment "bad.json" (ParseResult.parseError "eof") =
      (none, [Diag.invalidJson "bad.json" "eof"]) ∧
    load_fragment "x.json" (ParseResult.ok (JValue.obj noVarsFrag)) =
      (none, [Diag.missingFields "x.json" (missingOf noVarsFrag)]) := by
  have h := loader_rejects_invalid_and_continues
  exact ⟨(h.1 "bad.json" "eof").1, (h.2.1 "x.json" noVarsFrag (by decide)).1⟩

/-! ### C4: the sole fatal condition -/

/-- C4: when zero valid fragments are collected — in particular when the
source directory does not exist — the run exits with code 1 after a final
ERROR message and writes nothing; whenever at least one valid fragment
exists the run exits 0 without the final ERROR, so the empty valid set is
the sole fatal condition. -/
theorem zero_valid_fragments_fatal :
    (∀ args d today, (collect_fragments d).1 = [] →
      runMain args d today =
        { exitCode := 1, written := none, finalError := true }) ∧
    collect_fragments SourceDir.missing = ([], [Diag.dirNotFound]) ∧
    Diag.dirNotFound.severity = Severity.error ∧
    (∀ args d today, (collect_fragments d).1 ≠ [] →
      (runMain args d today).exitCode = 0 ∧
      (runMain args d today).finalError = false) := by
  refine ⟨fun args d today h => ?_, rfl, rfl, fun args d today h => ?_⟩
  · simp [runMain, h]
  · have hemp : ((collect_fragments d).1).isEmpty = false := by
      cases hm : (collect_fragments d).1
      · exact absurd hm h
      · rfl
    obtain ⟨v, dr⟩ := args
    cases v <;> cases dr <;> simp [runMain, hemp]

/-- Witness for C4: an empty directory and a missing directory are fatal;
a directory with one valid fragment is not. -/
theorem zero_valid_fragments_fatal_witness :
    runMain ⟨false, false⟩ (SourceDir.present []) ⟨2026, 10, 12⟩ =
      { exitCode := 1, written := none, finalError := true } ∧
    runMain ⟨false, false⟩ SourceDir.missing ⟨2026, 10, 12⟩ =
      { exitCode := 1, written := none, finalError := true } ∧
    (runMain ⟨false, false⟩
      (SourceDir.present [("docker.json", ParseResult.ok (JValue.obj dockerFrag))])
      ⟨2026, 10, 12⟩).exitCode = 0 := by
  have h := zero_valid_fragments_fatal
  refine ⟨h.1 _ _ _ rfl, h.1 _ _ _ rfl, (h.2.2.2 _ _ _ ?_).1⟩
  rw [show (collect_fragments (SourceDir.present
    [("docker.json", ParseResult.ok (JValue.obj dockerFrag))])).1 =
      [dockerFrag] from rfl]
  exact List.cons_ne_nil _ _

/-! ### C5: the catalog envelope -/

/-- The templates entry of a catalog envelope. -/
def templatesOf (profile : Dict) : List JValue :=
  match profile.lookup "templates" with
  | some (JValue.arr ts) => ts
  | _ => []

/-- C5: the builder produces exactly the envelope with the fixed version,
author, description and repository literals, lastUpdated as the current
local date in zero-padded year-month-day form, and templates equal to the
input fragment list verbatim; hence every entry of the generated
templates array still passes the required-field validation. -/
theorem builder_envelope_exact :
    (∀ fragments today, generate_profile fragments today =
      [("version", JValue.str "1.0.0"),
       ("lastUpdated", JValue.str (formatDate today)),
       ("author", JValue.str "TCM Community"),
       ("description", JValue.str
         "Terminal Context Manager - Profile Templates & Environment Variables Dictionary"),
       ("repository", JValue.str
         "https://github.com/ZhiZeYi/terminal-context-template"),
       ("templates", JValue.arr (fragments.map JValue.obj))]) ∧
    (∀ today, formatDate today =
      pad4 today.year ++ "-" ++ pad2 today.month ++ "-" ++ pad2 today.day) ∧
    formatDate ⟨2026, 10, 12⟩ = "2026-10-12" ∧
    (∀ fragments today,
      templatesOf (generate_profile fragments today) =
        fragments.map JValue.obj) ∧
    (∀ fragments today,
      (∀ f ∈ fragments, ∀ fld ∈ required_fields, hasKey f fld = true) →
      ∀ v ∈ templatesOf (generate_profile fragments today),
        ∃ kvs, v = JValue.obj kvs ∧
          ∀ fld ∈ required_fields, hasKey kvs fld = true) := by
  refine ⟨fun fragments today => rfl, fun today => rfl, by decide,
    fun fragments today => rfl, ?_⟩
  intro fragments today hv v hvmem
  rw [show templatesOf (generate_profile fragments today) =
    fragments.map JValue.obj from rfl] at hvmem
  obtain ⟨f, hf, rfl⟩ := List.mem_map.mp hvmem
  exact ⟨f, rfl, hv f hf⟩

/-- Witness for C5 on the concrete two-fragment catalog. -/
theorem builder_envelope_witness :
    templatesOf (generate_profile [openaiFrag, dockerFrag] ⟨2026, 10, 12⟩) =
      [JValue.obj openaiFrag, JValue.obj dockerFrag] ∧
    ∀ v ∈ templatesOf (generate_profile [openaiFrag, dockerFrag] ⟨2026, 10, 12⟩),
      ∃ kvs, v = JValue.obj kvs ∧
        ∀ fld ∈ required_fields, hasKey kvs fld = true := by
  have h := builder_envelope_exact
  exact ⟨h.2.2.2.1 [openaiFrag, dockerFrag] ⟨2026, 10, 12⟩,
    h.2.2.2.2 [openaiFrag, dockerFrag] ⟨2026, 10, 12⟩ (by decide)⟩

/-! ### C6: id mismatch warns but accepts -/

/-- A fragment whose id bar does not match its file name foo.json. -/
def barFrag : Dict :=
  [("id", JValue.str "bar"), ("name", JValue.str "Bar"),
   ("description", JValue.str "d"), ("category", JValue.str "AI"),
   ("variables", JValue.obj [])]

/-- C6: a fragment file whose id differs from the file stem, but which
parses and has all required attributes, is reported with a WARN
diagnostic yet returned unmodified, and it reaches the collected output
of its directory. -/
theorem mismatch_warns_but_accepts :
    (∀ fn kvs idv, missingOf kvs = [] → kvs.lookup "id" = some idv →
      eqStrB (fileStem fn) idv = false →
      load_fragment fn (ParseResult.ok (JValue.obj kvs)) =
        (some kvs, [Diag.idMismatch fn idv]) ∧
      (Diag.idMismatch fn idv).severity = Severity.warn) ∧
    (∀ files fn content kvs ds, (fn, content) ∈ files →
      isCandidate fn = true → load_fragment fn content = (some kvs, ds) →
      kvs ∈ (collect_fragments (SourceDir.present files)).1) ∧
    load_fragment "foo.json" (ParseResult.ok (JValue.obj barFrag)) =
      (some barFrag, [Diag.idMismatch "foo.json" (JValue.str "bar")]) := by
  refine ⟨fun fn kvs idv hm hl he => ⟨?_, rfl⟩,
    fun files fn content kvs ds hmem hcand hload => ?_, rfl⟩
  · have hemp : (missingOf kvs).isEmpty = true := by
      rw [hm]
      rfl
    simp [load_fragment, hemp, hl, he]
  · rw [collect_present_eq]
    refine List.mem_filterMap.mpr ⟨(fn, content), ?_, ?_⟩
    · rw [sortedCandidates, List.mem_insertionSort]
      exact List.mem_filter.mpr ⟨hmem, hcand⟩
    · rw [processOne_fst, hload]

/-- Witness for C6: the foo.json / bar fragment is accepted with a WARN
and appears in the collected output. -/
theorem mismatch_warns_witness :
    load_fragment "foo.json" (ParseResult.ok (JValue.obj barFrag)) =
      (some barFrag, [Diag.idMismatch "foo.json" (JValue.str "bar")]) ∧
    barFrag ∈ (collect_fragments (SourceDir.present
      [("foo.json", ParseResult.ok (JValue.obj barFrag))])).1 := by
  have h := mismatch_warns_but_accepts
  refine ⟨(h.1 "foo.json" barFrag (JValue.str "bar") (by decide) rfl rfl).1, ?_⟩
  exact h.2.1 [("foo.json", ParseResult.ok (JValue.obj barFrag))]
    "foo.json" (ParseResult.ok (JValue.obj barFrag)) barFrag
    [Diag.idMismatch "foo.json" (JValue.str "bar")]
    (List.mem_singleton.mpr rfl) rfl rfl

/-! ### C7: the collector enumerates exactly the candidates -/

/-- C7: the collector processes exactly the files whose name ends in
.json and does not start with the underscore marker — removing or adding
an excluded file anywhere in the listing changes neither the collected
fragments nor the console trace, and every reported line names a
candidate — and it processes candidates in ascending filename order, so
the result does not depend on the enumeration order of the directory. -/
theorem collector_excludes_and_sorts :
    (∀ xs ys n cnt, isCandidate n = false →
      collect_fragments (SourceDir.present (xs ++ (n, cnt) :: ys)) =
        collect_fragments (SourceDir.present (xs ++ ys))) ∧
    (∀ files dg, dg ∈ (collect_fragments (SourceDir.present files)).2 →
      ∃ fn, Diag.file dg = some fn ∧ isCandidate fn = true) ∧
    (∀ files1 files2, List.Perm files1 files2 →
      (files1.map Prod.fst).Nodup →
      collect_fragments (SourceDir.present files1) =
        collect_fragments (SourceDir.present files2)) ∧
    isCandidate "_draft.json" = false ∧
    isCandidate "docker.json" = true := by
  refine ⟨fun xs ys n cnt hn => ?_, fun files dg hdg => ?_,
    fun files1 files2 hp hn => collect_perm_eq hp hn, by decide, by decide⟩
  · have hs : sortedCandidates (xs ++ (n, cnt) :: ys) =
        sortedCandidates (xs ++ ys) := by
      unfold sortedCandidates
      congr 1
      simp [List.filter_append, List.filter_cons, hn]
    show (sortedCandidates _).foldl collectStep ([], []) =
      (sortedCandidates _).foldl collectStep ([], [])
    rw [hs]
  · rw [collect_present_eq] at hdg
    obtain ⟨fp, hfp, hdgm⟩ := List.mem_flatMap.mp hdg
    refine ⟨fp.1, processOne_diags_file fp dg hdgm, ?_⟩
    rw [sortedCandidates, List.mem_insertionSort] at hfp
    exact (List.mem_filter.mp hfp).2

/-- Witness for C7: adding a malformed _draft.json to a directory changes
nothing, and swapping the enumeration order of two files changes
nothing. -/
theorem collector_excludes_witness :
    collect_fragments (SourceDir.present
      [("_draft.json", ParseResult.parseError "bad"),
       ("docker.json", ParseResult.ok (JValue.obj dockerFrag))]) =
      collect_fragments (SourceDir.present
        [("docker.json", ParseResult.ok (JValue.obj dockerFrag))]) ∧
    collect_fragments (SourceDir.present
      [("openai.json", ParseResult.ok (JValue.obj openaiFrag)),
       ("docker.json", ParseResult.ok (JValue.obj dockerFrag))]) =
      collect_fragments (SourceDir.present
        [("docker.json", ParseResult.ok (JValue.obj dockerFrag)),
         ("openai.json", ParseResult.ok (JValue.obj openaiFrag))]) := by
  have h := collector_excludes_and_sorts
  refine ⟨h.1 [] [("docker.json", ParseResult.ok (JValue.obj dockerFrag))]
    "_draft.json" (ParseResult.parseError "bad") (by decide), ?_⟩
  exact h.2.2.1 _ _ (List.Perm.swap _ _ []) (by decide)

/-! ### C8: byte-identical regeneration -/

/-- The serialized catalog for the docker/openai directory on
2026-10-12, byte for byte. -/
def exampleOutput : String :=
  "\x7b\n  \"version\": \"1.0.0\",\n  \"lastUpdated\": \"2026-10-12\",\n  \"author\": \"TCM Community\",\n  \"description\": \"Terminal Context Manager - Profile Templates & Environment Variables Dictionary\",\n  \"repository\": \"https://github.com/ZhiZeYi/terminal-context-template\",\n  \"templates\": [\n    \x7b\n      \"id\": \"openai\",\n      \"name\": \"OpenAI\",\n      \"description\": \"OpenAI environment\",\n      \"category\": \"AI\",\n      \"variables\": \x7b\x7d\n    \x7d,\n    \x7b\n      \"id\": \"docker\",\n      \"name\": \"Docker\",\n      \"description\": \"Docker environment\",\n      \"category\": \"DevOps\",\n      \"variables\": \x7b\x7d\n    \x7d\n  ]\n\x7d\n"

set_option maxRecDepth 8000 in
/-- C8: the full pipeline is a pure function of the set of fragment
files and the current date: two runs over the same files — in whatever
enumeration order the filesystem presents them — on the same calendar
date produce identical results, in particular identical output bytes;
on the concrete docker/openai directory the emitted bytes are exactly
exampleOutput. -/
theorem regeneration_byte_identical :
    (∀ args files1 files2 today, List.Perm files1 files2 →
      (files1.map Prod.fst).Nodup →
      runMain args (SourceDir.present files1) today =
        runMain args (SourceDir.present files2) today) ∧
    (runMain ⟨false, false⟩ (SourceDir.present
      [("docker.json", ParseResult.ok (JValue.obj dockerFrag)),
       ("openai.json", ParseResult.ok (JValue.obj openaiFrag))])
      ⟨2026, 10, 12⟩).written = some exampleOutput := by
  refine ⟨fun args files1 files2 today hp hn => ?_, rfl⟩
  unfold runMain
  rw [collect_perm_eq hp hn]

/-- Witness for C8: swapping the enumeration order of the two example
files leaves the run result unchanged. -/
theorem regeneration_byte_identical_witness :
    runMain ⟨false, false⟩ (SourceDir.present
      [("docker.json", ParseResult.ok (JValue.obj dockerFrag)),
       ("openai.json", ParseResult.ok (JValue.obj openaiFrag))])
      ⟨2026, 10, 12⟩ =
    runMain ⟨false, false⟩ (SourceDir.present
      [("openai.json", ParseResult.ok (JValue.obj openaiFrag)),
       ("docker.json", ParseResult.ok (JValue.obj dockerFrag))])
      ⟨2026, 10, 12⟩ :=
  regeneration_byte_identical.1 ⟨false, false⟩ _ _ ⟨2026, 10, 12⟩
    (List.Perm.swap _ _ []) (by decide)

/-! ### C9: only objects with all required fields reach the catalog -/

theorem collect_mem_required {d : SourceDir} {f : Dict}
    (hf : f ∈ (collect_fragments d).1) :
    ∀ fld ∈ required_fields, hasKey f fld = true := by
  cases d with
  | missing => simp [collect_fragments] at hf
  | present files =>
    rw [collect_present_eq] at hf
    obtain ⟨fp, -, hload⟩ := List.mem_filterMap.mp hf
    rw [processOne_fst] at hload
    rcases hl : load_fragment fp.1 fp.2 with ⟨o, ds⟩
    rw [hl] at hload
    simp only at hload
    subst hload
    exact required_present_of_missing_nil (load_fragment_some_cases hl).2

/-- The array whose elements are the five required field names; its
membership check passes although it is not an object. -/
def fieldNamesArr : List JValue :=
  [JValue.str "id", JValue.str "name", JValue.str "description",
   JValue.str "category", JValue.str "variables"]

/-- C9: every entry of the generated templates array is a JSON object
carrying all five required fields; a file whose top-level value is not an
object is always rejected by the loader, even when — as for an array
containing the five field names — the membership check for required
fields passes, because the subsequent string subscript raises and is
caught by the per-file handler. -/
theorem templates_entries_are_objects :
    (∀ d today, ∀ v ∈ templatesOf (generate_profile
        (sort_fragments (collect_fragments d).1) today),
      ∃ kvs, v = JValue.obj kvs ∧
        ∀ fld ∈ required_fields, hasKey kvs fld = true) ∧
    (∀ fn data, (∀ kvs, data ≠ JValue.obj kvs) →
      (load_fragment fn (ParseResult.ok data)).1 = none) ∧
    required_fields.all (fun fld =>
      fieldNamesArr.any (fun v => eqStrB fld v)) = true ∧
    load_fragment "x.json" (ParseResult.ok (JValue.arr fieldNamesArr)) =
      (none, [Diag.otherError "x.json"
        "TypeError: list indices must be integers or slices, not str"]) := by
  refine ⟨fun d today v hv => ?_, fun fn data h => ?_, by decide, rfl⟩
  · rw [show templatesOf (generate_profile
        (sort_fragments (collect_fragments d).1) today) =
      (sort_fragments (collect_fragments d).1).map JValue.obj from rfl] at hv
    obtain ⟨f, hf, rfl⟩ := List.mem_map.mp hv
    rw [sort_fragments, List.mem_insertionSort] at hf
    exact ⟨f, rfl, collect_mem_required hf⟩
  · cases data with
    | obj kvs => exact absurd rfl (h kvs)
    | arr xs =>
      simp only [load_fragment]
      split <;> rfl
    | str s =>
      simp only [load_fragment]
      split <;> rfl
    | null => rfl
    | bool b => rfl
    | num n => rfl

/-- Witness for C9 on the docker directory and a concrete non-object
file. -/
theorem templates_entries_are_objects_witness :
    (∀ v ∈ templatesOf (generate_profile
        (sort_fragments (collect_fragments (SourceDir.present
          [("docker.json", ParseResult.ok (JValue.obj dockerFrag))])).1)
        ⟨2026, 10, 12⟩),
      ∃ kvs, v = JValue.obj kvs ∧
        ∀ fld ∈ required_fields, hasKey kvs fld = true) ∧
    (load_fragment "y.json" (ParseResult.ok (JValue.str "idx"))).1 = none := by
  have h := templates_entries_are_objects
  exact ⟨h.1 _ ⟨2026, 10, 12⟩,
    h.2.1 "y.json" (JValue.str "idx") (fun kvs hk => JValue.noConfusion hk)⟩

/-! ### C10: the sort key is total on arbitrary dicts -/

/-- C10: the sort key substitutes ZZZ for a missing category — giving the
same rank, the length of the precedence list, as any unknown category —
and the empty string for a missing id, so it is defined on every parsed
dict; a fragment with no id sorts no later than any fragment of equal
rank whose id is a string. -/
theorem sort_key_total_on_dicts :
    (∀ f : Dict, f.lookup "category" = none →
      dictGet f "category" (JValue.str "ZZZ") = JValue.str "ZZZ" ∧
      catRank f = category_order.length) ∧
    "ZZZ" ∉ category_order ∧
    (∀ f : Dict, f.lookup "id" = none →
      (sort_key f).2 = JValue.str "") ∧
    (∀ f g : Dict, ∀ s : String, f.lookup "id" = none →
      (sort_key g).2 = JValue.str s → catRank f = catRank g →
      fragLe f g) ∧
    (∀ f g : Dict, ∀ c : String, f.lookup "category" = none →
      dictGet g "category" (JValue.str "ZZZ") = JValue.str c →
      c ∉ category_order → catRank f = catRank g) := by
  have hcat : ∀ f : Dict, f.lookup "category" = none →
      dictGet f "category" (JValue.str "ZZZ") = JValue.str "ZZZ" ∧
      catRank f = category_order.length := by
    intro f h
    have h1 : dictGet f "category" (JValue.str "ZZZ") = JValue.str "ZZZ" := by
      simp [dictGet, h]
    refine ⟨h1, ?_⟩
    unfold catRank sort_key
    rw [h1]
    show catIndex (JValue.str "ZZZ") = category_order.length
    decide
  refine ⟨hcat, by decide, fun f h => by simp [sort_key, dictGet, h],
    fun f g s hf hg hr => ?_, fun f g c hf hg hc => ?_⟩
  · have hf2 : (sort_key f).2 = JValue.str "" := by simp [sort_key, dictGet, hf]
    unfold fragLe keyLe
    have hr2 : (sort_key f).1 = (sort_key g).1 := hr
    rw [hf2, hg, hr2]
    simp [jvalLe, charListLe]
  · rw [(hcat f hf).2, catRank_eq_indexOf hg]
    exact (List.indexOf_eq_length.mpr hc).symm

/-- Witness for C10 on a dict with neither id nor category. -/
theorem sort_key_total_witness :
    catRank [("name", JValue.str "n")] = category_order.length ∧
    (sort_key [("name", JValue.str "n")]).2 = JValue.str "" ∧
    fragLe [("name", JValue.str "n")] [("id", JValue.str "x")] := by
  have h := sort_key_total_on_dicts
  exact ⟨(h.1 [("name", JValue.str "n")] rfl).2,
    h.2.2.1 [("name", JValue.str "n")] rfl,
    h.2.2.2.1 [("name", JValue.str "n")] [("id", JValue.str "x")] "x"
      rfl rfl (by decide)⟩
